/-
Verification of the aioarangodb client core against its specification.

The development shallowly embeds the Python sources:
  * `request.py`   — `normalize_headers`, `normalize_params`, `Request`;
  * `pregel.py`    — `Pregel.job`, `Pregel.create_job`, `Pregel.delete_job`;
  * `http.py`      — `DefaultHTTPClient` (constants, `create_session`
                     configuration, `send_request` call shape).

Python dictionaries are embedded as association lists in insertion order:
assigning to an existing key replaces the value in place (keeping the key's
position), assigning to a fresh key appends it — exactly the observable
behaviour of a `dict`.  JSON values are the inductive `JVal`.  Parts of the
repository that are referenced but whose files are not present
(`response.py`, `exceptions.py`, `formatter.py`, and the retry engine, which
lives in the external `aiohttp_retry` library) are modelled from the
specification; each such definition says so in its doc comment.
-/
import Mathlib

set_option maxHeartbeats 1000000

/-- Python `d[k] = v` on an insertion-ordered dictionary represented as an
association list: replace the value at the first occurrence of `k`, keeping
its position, or append `(k, v)` if `k` is absent. -/
def setKey {α : Type} : List (String × α) → String → α → List (String × α)
  | [], k, v => [(k, v)]
  | (k', v') :: rest, k, v =>
      if k' = k then (k, v) :: rest else (k', v') :: setKey rest k v

/-- Keys of an embedded dictionary, in insertion order. -/
def dictKeys {α : Type} (d : List (String × α)) : List String :=
  d.map Prod.fst

/-- JSON values, the payloads handled by the client (`Json = Dict[str, Any]`
in `typings.py`). -/
inductive JVal where
  | jbool : Bool → JVal
  | jint : Int → JVal
  | jstr : String → JVal
  | jobj : List (String × JVal) → JVal
deriving Repr

/-- A JSON object body, e.g. the `data` dictionary built by
`Pregel.create_job`. -/
abbrev JDict := List (String × JVal)

/-- Values admitted in query parameters: `Params = Dict[str, Union[bool, int,
str]]` in `typings.py`. -/
inductive PValue where
  | pbool : Bool → PValue
  | pint : Int → PValue
  | pstr : String → PValue
deriving Repr, DecidableEq

/-- `Headers = Dict[str, str]` from `typings.py`, as an ordered association
list. -/
abbrev HeadersD := List (String × String)

/-- `Params` from `typings.py`, as an ordered association list. -/
abbrev ParamsD := List (String × PValue)

/-- Embedding of the body of `normalize_params`'s loop: Python first turns a
`bool` into an `int` (`True ↦ 1`, `False ↦ 0`) and then applies `str`; other
values go through `str` directly. -/
def pvalStr : PValue → String
  | .pbool b => if b then "1" else "0"
  | .pint i => toString i
  | .pstr s => s

/-- `request.py`, `normalize_headers`: start from the default pair
`{"charset": "utf-8", "content-type": "application/json"}` and assign every
caller-supplied entry under its lower-cased key (later entries overwrite
earlier ones, Python-dict style). -/
def normalize_headers (headers : Option HeadersD) : HeadersD :=
  let normalized : HeadersD :=
    [("charset", "utf-8"), ("content-type", "application/json")]
  match headers with
  | none => normalized
  | some hs => hs.foldl (fun acc kv => setKey acc kv.1.toLower kv.2) normalized

/-- `request.py`, `normalize_params`: start from the empty dictionary and
assign `str(value)` (booleans first coerced through `int`) under the
unchanged key. -/
def normalize_params (params : Option ParamsD) : List (String × String) :=
  match params with
  | none => []
  | some ps => ps.foldl (fun acc kv => setKey acc kv.1 (pvalStr kv.2)) []

/-- `Fields = Union[str, Sequence[str]]` from `typings.py`. -/
inductive FieldsV where
  | one : String → FieldsV
  | many : List String → FieldsV
deriving Repr, DecidableEq

/-- `request.py`, class `Request`: the stored attributes after
`__init__` ran. -/
structure Request where
  method : String
  endpoint : String
  headers : HeadersD
  params : List (String × String)
  data : Option JVal
  read : Option FieldsV
  write : Option FieldsV
  exclusive : Option FieldsV
  deserialize : Bool
deriving Repr

/-- `Request.__init__`: stores `method`, `endpoint` and the payload verbatim
and normalizes `headers` and `params` exactly once, at construction. -/
def Request.make (method endpoint : String) (headers : Option HeadersD)
    (params : Option ParamsD) (data : Option JVal) (read write exclusive :
    Option FieldsV) (deserialize : Bool) : Request :=
  { method := method
    endpoint := endpoint
    headers := normalize_headers headers
    params := normalize_params params
    data := data
    read := read
    write := write
    exclusive := exclusive
    deserialize := deserialize }

/-- Modelled from the spec: `response.py` is not among the sources.  The spec
describes a Response as "method, url, headers, numeric status code, status
text, raw body (always captured verbatim), and a success predicate (2xx
range)"; handlers additionally read the parsed `body`, which we carry as a
`JVal` field. -/
structure Response where
  method : String
  url : String
  headers : HeadersD
  status_code : Nat
  status_text : String
  raw_body : String
  body : JVal
deriving Repr

/-- Modelled from the spec: the success predicate is "any 2xx status". -/
def Response.is_success (r : Response) : Bool :=
  200 ≤ r.status_code && r.status_code < 300

/-- Modelled from the spec: `exceptions.py` is not among the sources.  The
spec's HTTPError taxonomy has "one kind per call site", each carrying "the
original Request and Response"; `pregel.py` imports the three kinds below. -/
inductive ArangoServerError where
  | pregelJobCreateError : Response → Request → ArangoServerError
  | pregelJobDeleteError : Response → Request → ArangoServerError
  | pregelJobGetError : Response → Request → ArangoServerError
deriving Repr

namespace Pregel

/-- `pregel.py`, `Pregel.job`: the request it builds,
`Request(method="get", endpoint=f"/_api/control_pregel/{job_id}")`. -/
def job_request (job_id : Int) : Request :=
  Request.make "get" ("/_api/control_pregel/" ++ toString job_id)
    none none none none none none true

/-- `pregel.py`, `Pregel.job`: the `response_handler` closure.  On a
successful response it returns `format_pregel_job_data(resp.body)`
(`formatter.py` is not among the sources, so the formatter is taken as a
parameter `fmt`); otherwise it raises `PregelJobGetError(resp, request)`. -/
def job_response_handler (fmt : JVal → JVal) (job_id : Int) (resp : Response) :
    Except ArangoServerError JVal :=
  if resp.is_success then .ok (fmt resp.body)
  else .error (.pregelJobGetError resp (job_request job_id))

/-- `pregel.py`, `Pregel.create_job`: the mutation of `algorithm_params`
performed by the five `if ... is not None` guards, in source order.  `store`
is typed `bool` (default `True`), so its guard `store is not None` always
passes and the assignment `algorithm_params["store"] = store` always runs;
the remaining four parameters are genuinely optional. -/
def mergeParams (algorithm_params : JDict) (store : Bool)
    (max_gss thread_count : Option Int) (async_mode : Option Bool)
    (result_field : Option String) : JDict :=
  let d := setKey algorithm_params "store" (.jbool store)
  let d := match max_gss with
    | some v => setKey d "maxGSS" (.jint v)
    | none => d
  let d := match thread_count with
    | some v => setKey d "parallelism" (.jint v)
    | none => d
  let d := match async_mode with
    | some v => setKey d "async" (.jbool v)
    | none => d
  let d := match result_field with
    | some v => setKey d "resultField" (.jstr v)
    | none => d
  d

/-- `pregel.py`, `Pregel.create_job`: the `data` dictionary.  It starts as
`{"algorithm": algorithm, "graphName": graph}`; a `None` `algorithm_params`
is replaced by `{}`; the optional parameters are merged in; and
`data["params"]` is set exactly when the merged dictionary is truthy
(non-empty). -/
def create_job_data (graph algorithm : String) (store : Bool)
    (max_gss thread_count : Option Int) (async_mode : Option Bool)
    (result_field : Option String) (algorithm_params : Option JDict) : JDict :=
  let data : JDict := [("algorithm", .jstr algorithm), ("graphName", .jstr graph)]
  let ap := algorithm_params.getD []
  let merged := mergeParams ap store max_gss thread_count async_mode result_field
  if merged.isEmpty then data else setKey data "params" (.jobj merged)

/-- `pregel.py`, `Pregel.create_job`: the request it builds,
`Request(method="post", endpoint="/_api/control_pregel", data=data)`. -/
def create_job_request (graph algorithm : String) (store : Bool)
    (max_gss thread_count : Option Int) (async_mode : Option Bool)
    (result_field : Option String) (algorithm_params : Option JDict) : Request :=
  Request.make "post" "/_api/control_pregel" none none
    (some (.jobj (create_job_data graph algorithm store max_gss thread_count
      async_mode result_field algorithm_params)))
    none none none true

end Pregel

namespace DefaultHTTPClient

/-- `http.py`, `DefaultHTTPClient.REQUEST_TIMEOUT` (class attribute). -/
def REQUEST_TIMEOUT : Nat := 60

/-- `http.py`, `DefaultHTTPClient.RETRY_ATTEMPTS` (class attribute). -/
def RETRY_ATTEMPTS : Nat := 3

/-- `http.py`, `DefaultHTTPClient.BACKOFF_FACTOR` (class attribute). -/
def BACKOFF_FACTOR : Nat := 1

/-- `http.py`, `create_session`: the keyword arguments passed to
`ExponentialRetry(attempts=3, statuses={429, 500, 502, 503, 504})`. -/
structure ExponentialRetryArgs where
  attempts : Nat
  statuses : List Nat
deriving Repr, DecidableEq

/-- `http.py`, `create_session`: the keyword arguments passed to
`RetryClient(raise_for_status=False, retry_options=retry_options)`.
`timeout = none` records that no timeout keyword is supplied to the
session constructor. -/
structure RetryClientArgs where
  raise_for_status : Bool
  retry_options : ExponentialRetryArgs
  timeout : Option Nat
deriving Repr, DecidableEq

/-- `http.py`, `DefaultHTTPClient.create_session`: the session configuration
it constructs. -/
def create_session_args : RetryClientArgs :=
  { raise_for_status := false
    retry_options := { attempts := 3, statuses := [429, 500, 502, 503, 504] }
    timeout := none }

/-- `http.py`, `send_request`: the keyword arguments of the call
`request(url=url, params=params, data=data, headers=headers, auth=auth)`.
`timeout = none` records that no timeout keyword is supplied per request. -/
structure SessionRequestKwargs where
  url : String
  params : Option (List (String × String))
  data : Option String
  headers : Option HeadersD
  auth : Option (String × String)
  timeout : Option Nat
deriving Repr, DecidableEq

/-- `http.py`, `DefaultHTTPClient.send_request`: the keyword arguments it
passes to the session method named by `method`. -/
def send_request_kwargs (url : String) (params : Option (List (String × String)))
    (data : Option String) (headers : Option HeadersD)
    (auth : Option (String × String)) : SessionRequestKwargs :=
  { url := url, params := params, data := data, headers := headers,
    auth := auth, timeout := none }

/-- One physical attempt made by the session either fails at the connection
level or yields a server reply. -/
inductive AttemptOutcome where
  | connError : AttemptOutcome
  | reply : Response → AttemptOutcome

/-- Modelled from the spec: "TransportError — connection/timeout failure
after exhausting retry attempts; carries attempt count". -/
structure TransportError where
  attempts : Nat
deriving Repr, DecidableEq

/-- The statuses configured in `create_session`'s `ExponentialRetry`. -/
def retry_statuses : List Nat := [429, 500, 502, 503, 504]

/-- Retry exactly when the reply status is one of the configured transient
statuses; the decision reads nothing but the status code. -/
def shouldRetryStatus (status : Nat) : Bool :=
  status ∈ retry_statuses

/-- Modelled from the spec: the retry loop of the session built by
`create_session` (the engine itself lives in the external `aiohttp_retry`
library).  `budget` counts the attempts still allowed after the current one,
`made` the attempts already made.  A connection error or a transient status
consumes another attempt while budget remains; a connection error on the
last attempt raises a TransportError carrying the attempt count; any reply
on the last attempt — and any non-transient reply at once — is returned as a
normal Response. -/
def retryLoop (oracle : Nat → AttemptOutcome) :
    Nat → Nat → Except TransportError (Response × Nat)
  | 0, made => .error { attempts := made }
  | budget + 1, made =>
    match oracle made with
    | .connError =>
        if budget = 0 then .error { attempts := made + 1 }
        else retryLoop oracle budget (made + 1)
    | .reply r =>
        if shouldRetryStatus r.status_code && !(budget = 0 : Bool) then
          retryLoop oracle budget (made + 1)
        else .ok (r, made + 1)

/-- Modelled from the spec: a full `send` through the retrying session —
`RETRY_ATTEMPTS` physical attempts at most, outcomes supplied by `oracle`
(the outcome of the i-th attempt, counting from 0).  Returns the final
Response together with the number of attempts made, or a TransportError. -/
def send (oracle : Nat → AttemptOutcome) : Except TransportError (Response × Nat) :=
  retryLoop oracle RETRY_ATTEMPTS 0

/-- Modelled from the spec: the exponential backoff delay schedule of the
session's `ExponentialRetry` policy — the pause before re-attempt `i` in
milliseconds, `start_timeout * factor ^ i` with the library's
`start_timeout = 0.1 s` and `factor = 2`. -/
def backoff_delay_ms (i : Nat) : Nat := 100 * 2 ^ i

/-- An attempt outcome is retried exactly when it is a connection error or a
reply with a transient status. -/
def retriable : AttemptOutcome → Bool
  | .connError => true
  | .reply r => shouldRetryStatus r.status_code

/-- The status-only view of an attempt outcome: a connection error, or the
reply's status code — everything of an outcome the retry engine looks at. -/
def attemptStatus : AttemptOutcome → Option Nat
  | .connError => none
  | .reply r => some r.status_code

/-- The status-only view of a send outcome: final status (`none` for a
transport error) and the number of attempts made. -/
def resultView : Except TransportError (Response × Nat) → Option Nat × Nat
  | .ok (r, n) => (some r.status_code, n)
  | .error e => (none, e.attempts)

/-- Number of physical attempts a send performed. -/
def sendAttempts (oracle : Nat → AttemptOutcome) : Nat :=
  (resultView (send oracle)).2

end DefaultHTTPClient

namespace Pregel

/-- Dictionary objects referenced by identity: a store mapping object ids to
their current contents, used to state what `create_job` does to the caller's
`algorithm_params` dictionary object. -/
def DictHeap := Nat → JDict

/-- Outcome of one `create_job` call in the object-identity model: the store
after the call, the id of the dictionary object the call used as
`algorithm_params`, and the request body it built. -/
structure CreateJobEffect where
  heap : DictHeap
  params_ref : Nat
  data : JDict

/-- `pregel.py`, `Pregel.create_job`, with dictionary identity made explicit:
when the caller passes `algorithm_params`, that very object (id `r`) is
written through by the five parameter guards — no copy is made; only when
`algorithm_params is None` does `algorithm_params = {}` bind a fresh empty
dictionary (allocated at id `fresh`).  The body's `"params"` entry holds the
contents of that same object. -/
def create_job_on_heap (heap : DictHeap) (fresh : Nat) (graph algorithm : String)
    (store : Bool) (max_gss thread_count : Option Int) (async_mode : Option Bool)
    (result_field : Option String) (algorithm_params : Option Nat) :
    CreateJobEffect :=
  let base : JDict := [("algorithm", .jstr algorithm), ("graphName", .jstr graph)]
  let ref := match algorithm_params with
    | some r => r
    | none => fresh
  let contents := match algorithm_params with
    | some r => heap r
    | none => []
  let merged := mergeParams contents store max_gss thread_count async_mode
    result_field
  { heap := fun q => if q = ref then merged else heap q
    params_ref := ref
    data := if merged.isEmpty then base else setKey base "params" (.jobj merged) }

end Pregel

/-- The value of the last caller entry whose lower-cased key is `k`, if any:
the entry that "wins" the Python-dict merge in `normalize_headers`. -/
def lastOverride (k : String) : HeadersD → Option String
  | [] => none
  | kv :: rest =>
    match lastOverride k rest with
    | some v => some v
    | none => if kv.1.toLower = k then some kv.2 else none

/-- Structural invariant of every dictionary `normalize_headers` can build:
the two default keys sit first (in order), every further key is distinct,
lower-case-fixed and different from the defaults. -/
def HShape (d : HeadersD) : Prop :=
  ∃ a b rest, d = ("charset", a) :: ("content-type", b) :: rest ∧
    "charset" ∉ dictKeys rest ∧ "content-type" ∉ dictKeys rest ∧
    (dictKeys rest).Nodup ∧ ∀ kv ∈ rest, kv.1.toLower = kv.1

/-- Positional evaluation of a digit string, the inverse direction of
`Nat.toDigits`. -/
def evalDigits (l : List Char) : Nat :=
  l.foldl (fun acc c => acc * 10 + (c.toNat - 48)) 0

/-- Number of decimal digits, matching the recursion of `Nat.toDigitsCore`. -/
def decLen (n : Nat) : Nat :=
  if h : n < 10 then 1 else decLen (n / 10) + 1
decreasing_by exact Nat.div_lt_self (by omega) (by omega)

/-! ### Concrete fixtures used by the witnesses -/

/-- A representative 404 reply. -/
def resp404 : Response :=
  { method := "get", url := "http://localhost:8529/_db/_system/_api/control_pregel/42",
    headers := [], status_code := 404, status_text := "Not Found",
    raw_body := "", body := .jobj [] }

/-- A representative 200 reply. -/
def resp200 : Response :=
  { method := "get", url := "http://localhost:8529/_db/_system/_api/control_pregel/42",
    headers := [], status_code := 200, status_text := "OK",
    raw_body := "", body := .jobj [("state", .jstr "done")] }

/-! ### Dictionary lemmas -/

theorem lookup_cons' {α : Type} (d : List (String × α)) (k k' : String)
    (v' : α) : (((k', v') :: d).lookup k) =
      if k = k' then some v' else d.lookup k := by
  rw [List.lookup_cons]
  by_cases h : k = k'
  · simp [h]
  · have hb : (k == k') = false := beq_eq_false_iff_ne.mpr h
    simp [hb, h]

theorem lookup_setKey_self {α : Type} (d : List (String × α)) (k : String)
    (v : α) : (setKey d k v).lookup k = some v := by
  induction d with
  | nil => simp [setKey, lookup_cons']
  | cons kv rest ih =>
    obtain ⟨k', v'⟩ := kv
    by_cases h : k' = k
    · subst h
      simp [setKey, lookup_cons']
    · simp [setKey, h, lookup_cons', Ne.symm h, ih]

theorem lookup_setKey_ne {α : Type} (d : List (String × α)) {k k' : String}
    (v : α) (h : k' ≠ k) : (setKey d k' v).lookup k = d.lookup k := by
  induction d with
  | nil => simp [setKey, lookup_cons', Ne.symm h]
  | cons kv rest ih =>
    obtain ⟨k₀, v₀⟩ := kv
    by_cases h0 : k₀ = k'
    · subst h0
      simp [setKey, lookup_cons', Ne.symm h, h]
    · simp [setKey, h0, lookup_cons', ih]

theorem mem_dictKeys_setKey {α : Type} {d : List (String × α)} {k x : String}
    {v : α} (h : x ∈ dictKeys (setKey d k v)) : x ∈ dictKeys d ∨ x = k := by
  induction d with
  | nil => simpa [setKey, dictKeys] using h
  | cons kv rest ih =>
    obtain ⟨k₀, v₀⟩ := kv
    by_cases h0 : k₀ = k
    · subst h0
      rw [show setKey ((k₀, v₀) :: rest) k₀ v = (k₀, v) :: rest from by
        simp [setKey]] at h
      simp only [dictKeys, List.map_cons, List.mem_cons] at h
      rcases h with h | h
      · exact Or.inr h
      · refine Or.inl ?_
        simp only [dictKeys, List.map_cons, List.mem_cons]
        exact Or.inr h
    · simp only [setKey, h0, if_false, dictKeys, List.map_cons, List.mem_cons] at h
      rcases h with h | h
      · refine Or.inl ?_
        simp only [dictKeys, List.map_cons, List.mem_cons]
        exact Or.inl h
      · rcases ih h with h' | h'
        · refine Or.inl ?_
          simp only [dictKeys, List.map_cons, List.mem_cons]
          exact Or.inr (by simpa [dictKeys] using h')
        · exact Or.inr h'

theorem setKey_of_not_mem {α : Type} {d : List (String × α)} {k : String}
    (v : α) (h : k ∉ dictKeys d) : setKey d k v = d ++ [(k, v)] := by
  induction d with
  | nil => simp [setKey]
  | cons kv rest ih =>
    obtain ⟨k₀, v₀⟩ := kv
    simp only [dictKeys, List.map_cons, List.mem_cons] at h
    push_neg at h
    have hne : ¬k₀ = k := fun hh => h.1 hh.symm
    simp [setKey, hne, ih (by simpa [dictKeys] using h.2)]

theorem dictKeys_setKey_of_mem {α : Type} {d : List (String × α)} {k : String}
    (v : α) (h : k ∈ dictKeys d) : dictKeys (setKey d k v) = dictKeys d := by
  induction d with
  | nil => simp [dictKeys] at h
  | cons kv rest ih =>
    obtain ⟨k₀, v₀⟩ := kv
    by_cases h0 : k₀ = k
    · subst h0
      simp [setKey, dictKeys]
    · simp only [dictKeys, List.map_cons, List.mem_cons] at h
      rcases h with h | h
      · exact absurd h.symm h0
      · have := ih (by simpa [dictKeys] using h)
        simp only [setKey, h0, if_false, dictKeys, List.map_cons]
        simpa [dictKeys] using congrArg (List.cons k₀) this

theorem setKey_ne_nil {α : Type} (d : List (String × α)) (k : String) (v : α) :
    setKey d k v ≠ [] := by
  cases d with
  | nil => simp [setKey]
  | cons kv rest =>
    obtain ⟨k₀, v₀⟩ := kv
    by_cases h : k₀ = k <;> simp [setKey, h]

theorem mem_setKey {α : Type} {d : List (String × α)} {k : String} {v : α}
    {kv : String × α} (h : kv ∈ setKey d k v) : kv ∈ d ∨ kv = (k, v) := by
  induction d with
  | nil => simpa [setKey] using h
  | cons kv₀ rest ih =>
    obtain ⟨k₀, v₀⟩ := kv₀
    by_cases h0 : k₀ = k
    · subst h0
      rcases (by simpa [setKey] using h : kv = (k₀, v) ∨ kv ∈ rest) with h' | h'
      · exact Or.inr h'
      · exact Or.inl (by simp [h'])
    · rcases (by simpa [setKey, h0] using h : kv = (k₀, v₀) ∨ kv ∈ setKey rest k v)
        with h' | h'
      · exact Or.inl (by simp [h'])
      · rcases ih h' with h'' | h''
        · exact Or.inl (by simp [h''])
        · exact Or.inr h''

theorem dictKeys_setKey_nodup {α : Type} {d : List (String × α)} (k : String)
    (v : α) (h : (dictKeys d).Nodup) : (dictKeys (setKey d k v)).Nodup := by
  by_cases hm : k ∈ dictKeys d
  · rwa [dictKeys_setKey_of_mem v hm]
  · rw [setKey_of_not_mem v hm]
    have : dictKeys (d ++ [(k, v)]) = dictKeys d ++ [k] := by
      simp [dictKeys]
    rw [this, List.nodup_append]
    exact ⟨h, List.nodup_singleton k, by
      intro x hx hxk
      simp only [List.mem_singleton] at hxk
      exact hm (hxk ▸ hx)⟩

/-! ### Lower-casing lemmas -/

theorem char_toNat_ofNat (n : Nat) (h : n.isValidChar) :
    (Char.ofNat n).toNat = n := by
  simp [Char.ofNat, h, Char.ofNatAux, Char.toNat, UInt32.toNat,
    BitVec.toNat_ofNatLt]

theorem char_toLower_idem (c : Char) : c.toLower.toLower = c.toLower := by
  unfold Char.toLower
  by_cases h : c.toNat ≥ 65 ∧ c.toNat ≤ 90
  · rw [if_pos h]
    have hv : (c.toNat + 32).isValidChar := Or.inl (by omega)
    rw [if_neg]
    rw [char_toNat_ofNat _ hv]
    omega
  · rw [if_neg h, if_neg h]

theorem string_toLower_idem (s : String) : s.toLower.toLower = s.toLower := by
  simp [String.toLower, String.map_eq, List.map_map, Function.comp_def,
    char_toLower_idem]

/-! ### Characterizing the header fold -/

theorem lookup_headers_foldl (hs : HeadersD) (init : HeadersD) (k : String) :
    (hs.foldl (fun acc kv => setKey acc kv.1.toLower kv.2) init).lookup k =
      match lastOverride k hs with
      | some v => some v
      | none => init.lookup k := by
  induction hs generalizing init with
  | nil => simp [lastOverride]
  | cons kv rest ih =>
    obtain ⟨k₀, v₀⟩ := kv
    simp only [List.foldl_cons]
    rw [ih]
    cases hrest : lastOverride k rest with
    | some v => simp [lastOverride, hrest]
    | none =>
      by_cases hk : k₀.toLower = k
      · simp [lastOverride, hrest, hk, lookup_setKey_self]
      · have hne : k₀.toLower ≠ k := hk
        simp [lastOverride, hrest, hk, lookup_setKey_ne init v₀ hne]

theorem mem_dictKeys_headers_foldl {hs : HeadersD} {init : HeadersD}
    {x : String} (h : x ∈ dictKeys
      (hs.foldl (fun acc kv => setKey acc kv.1.toLower kv.2) init)) :
    x ∈ dictKeys init ∨ ∃ kv ∈ hs, x = kv.1.toLower := by
  induction hs generalizing init with
  | nil => exact Or.inl h
  | cons kv rest ih =>
    obtain ⟨k₀, v₀⟩ := kv
    simp only [List.foldl_cons] at h
    rcases ih h with h' | h'
    · rcases mem_dictKeys_setKey h' with h'' | h''
      · exact Or.inl h''
      · exact Or.inr ⟨(k₀, v₀), by simp, h''⟩
    · obtain ⟨kv', hmem, hx⟩ := h'
      exact Or.inr ⟨kv', by simp [hmem], hx⟩

/-! ### Idempotence machinery -/

theorem foldl_setKey_append {α : Type} :
    ∀ (l acc : List (String × α)), (∀ kv ∈ l, kv.1 ∉ dictKeys acc) →
    (dictKeys l).Nodup →
    l.foldl (fun acc kv => setKey acc kv.1 kv.2) acc = acc ++ l := by
  intro l
  induction l with
  | nil => intro acc _ _; simp
  | cons kv rest ih =>
    intro acc hout hnd
    obtain ⟨k₀, v₀⟩ := kv
    simp only [List.foldl_cons]
    rw [setKey_of_not_mem v₀ (hout (k₀, v₀) (by simp))]
    simp only [dictKeys, List.map_cons, List.nodup_cons] at hnd
    have hnd' : (dictKeys rest).Nodup := hnd.2
    have hhead : k₀ ∉ dictKeys rest := hnd.1
    have hout' : ∀ kv ∈ rest, kv.1 ∉ dictKeys (acc ++ [(k₀, v₀)]) := by
      intro kv hm
      simp only [dictKeys, List.map_append, List.mem_append, List.map_cons,
        List.map_nil, List.mem_singleton]
      push_neg
      refine ⟨fun hc => hout kv (by simp [hm]) (by simpa [dictKeys] using hc), ?_⟩
      intro hk
      exact hhead (hk ▸ (by simpa [dictKeys] using List.mem_map_of_mem Prod.fst hm))
    rw [ih (acc ++ [(k₀, v₀)]) hout' hnd']
    simp

theorem headers_foldl_of_lower (l : HeadersD) (acc : HeadersD)
    (h : ∀ kv ∈ l, kv.1.toLower = kv.1) :
    l.foldl (fun acc kv => setKey acc kv.1.toLower kv.2) acc =
      l.foldl (fun acc kv => setKey acc kv.1 kv.2) acc := by
  induction l generalizing acc with
  | nil => rfl
  | cons kv rest ih =>
    simp only [List.foldl_cons, h kv (by simp)]
    exact ih _ (fun kv' hm => h kv' (by simp [hm]))

theorem hshape_setKey {d : HeadersD} (hd : HShape d) (x : String) (v : String)
    (hx : x.toLower = x) : HShape (setKey d x v) := by
  obtain ⟨a, b, rest, rfl, h1, h2, h3, h4⟩ := hd
  by_cases hc : x = "charset"
  · subst hc
    refine ⟨v, b, rest, ?_, h1, h2, h3, h4⟩
    simp [setKey]
  · by_cases hct : x = "content-type"
    · subst hct
      refine ⟨a, v, rest, ?_, h1, h2, h3, h4⟩
      simp [setKey]
    · refine ⟨a, b, setKey rest x v, ?_, ?_, ?_, ?_, ?_⟩
      · have hne1 : ¬("charset" : String) = x := fun hh => hc hh.symm
        have hne2 : ¬("content-type" : String) = x := fun hh => hct hh.symm
        simp [setKey, hne1, hne2]
      · intro hm
        rcases mem_dictKeys_setKey hm with hm' | hm'
        · exact h1 hm'
        · exact hc hm'.symm
      · intro hm
        rcases mem_dictKeys_setKey hm with hm' | hm'
        · exact h2 hm'
        · exact hct hm'.symm
      · exact dictKeys_setKey_nodup x v h3
      · intro kv hm
        rcases mem_setKey hm with hm' | hm'
        · exact h4 kv hm'
        · rw [hm']
          exact hx

theorem hshape_headers_foldl (hs : HeadersD) {init : HeadersD}
    (h : HShape init) :
    HShape (hs.foldl (fun acc kv => setKey acc kv.1.toLower kv.2) init) := by
  induction hs generalizing init with
  | nil => exact h
  | cons kv rest ih =>
    simp only [List.foldl_cons]
    exact ih (hshape_setKey h kv.1.toLower kv.2 (string_toLower_idem kv.1))

theorem hshape_normalize_headers (h : Option HeadersD) :
    HShape (normalize_headers h) := by
  have hdef : HShape [("charset", "utf-8"), ("content-type", "application/json")] :=
    ⟨"utf-8", "application/json", [], rfl, by simp [dictKeys], by simp [dictKeys],
      by simp [dictKeys], by simp⟩
  cases h with
  | none => exact hdef
  | some hs => exact hshape_headers_foldl hs hdef

theorem toLower_charset : ("charset" : String).toLower = "charset" := by
  simp [String.toLower, String.map_eq]

theorem toLower_content_type :
    ("content-type" : String).toLower = "content-type" := by
  simp [String.toLower, String.map_eq]

theorem normalize_headers_idem (h : Option HeadersD) :
    normalize_headers (some (normalize_headers h)) = normalize_headers h := by
  obtain ⟨a, b, rest, hd, h1, h2, h3, h4⟩ := hshape_normalize_headers h
  rw [hd]
  show (("charset", a) :: ("content-type", b) :: rest).foldl
    (fun acc kv => setKey acc kv.1.toLower kv.2)
    [("charset", "utf-8"), ("content-type", "application/json")] = _
  simp only [List.foldl_cons, toLower_charset, toLower_content_type]
  rw [show setKey [("charset", "utf-8"), ("content-type", "application/json")]
    "charset" a = [("charset", a), ("content-type", "application/json")] from by
      simp [setKey]]
  rw [show setKey [("charset", a), ("content-type", "application/json")]
    "content-type" b = [("charset", a), ("content-type", b)] from by
      simp [setKey]]
  rw [headers_foldl_of_lower rest _ h4]
  rw [foldl_setKey_append rest [("charset", a), ("content-type", b)] ?out h3]
  case out =>
    intro kv hm
    simp only [dictKeys, List.map_cons, List.map_nil, List.mem_cons,
      List.not_mem_nil, or_false, List.mem_singleton]
    push_neg
    constructor
    · intro hk
      exact h1 (hk ▸ (by simpa [dictKeys] using List.mem_map_of_mem Prod.fst hm))
    · intro hk
      exact h2 (hk ▸ (by simpa [dictKeys] using List.mem_map_of_mem Prod.fst hm))
  rfl

theorem params_foldl_nodup (ps : ParamsD) (acc : List (String × String))
    (h : (dictKeys acc).Nodup) :
    (dictKeys (ps.foldl (fun acc kv => setKey acc kv.1 (pvalStr kv.2)) acc)).Nodup := by
  induction ps generalizing acc with
  | nil => exact h
  | cons kv rest ih =>
    simp only [List.foldl_cons]
    exact ih _ (dictKeys_setKey_nodup kv.1 (pvalStr kv.2) h)

theorem normalize_params_nodup (p : Option ParamsD) :
    (dictKeys (normalize_params p)).Nodup := by
  cases p with
  | none => simp [normalize_params, dictKeys]
  | some ps => exact params_foldl_nodup ps [] (by simp [dictKeys])

theorem normalize_params_idem (p : Option ParamsD) :
    normalize_params (some ((normalize_params p).map
      (fun kv => (kv.1, PValue.pstr kv.2)))) = normalize_params p := by
  show ((normalize_params p).map (fun kv => (kv.1, PValue.pstr kv.2))).foldl
    (fun acc kv => setKey acc kv.1 (pvalStr kv.2)) [] = _
  rw [List.foldl_map]
  have : ∀ (l : List (String × String)) (acc : List (String × String)),
      l.foldl (fun acc kv => setKey acc kv.1 (pvalStr (PValue.pstr kv.2))) acc =
      l.foldl (fun acc kv => setKey acc kv.1 kv.2) acc :=
    fun l acc => rfl
  rw [this]
  rw [foldl_setKey_append (normalize_params p) [] (by simp [dictKeys])
    (normalize_params_nodup p)]
  simp

/-! ### Injectivity of the decimal representation -/

theorem digitChar_toNat {m : Nat} (h : m < 10) :
    (Nat.digitChar m).toNat = 48 + m := by
  interval_cases m <;> rfl

theorem foldl_toDigitsCore (fuel : Nat) :
    ∀ (n : Nat) (ds : List Char) (a : Nat), n < fuel →
    (Nat.toDigitsCore 10 fuel n ds).foldl (fun acc c => acc * 10 + (c.toNat - 48)) a =
      ds.foldl (fun acc c => acc * 10 + (c.toNat - 48)) (a * 10 ^ decLen n + n) := by
  induction fuel with
  | zero => intro n ds a h; omega
  | succ fuel ih =>
    intro n ds a h
    show (let d := Nat.digitChar (n % 10);
      if n / 10 = 0 then d :: ds else Nat.toDigitsCore 10 fuel (n / 10)
        (d :: ds)).foldl (fun acc c => acc * 10 + (c.toNat - 48)) a = _
    by_cases h0 : n / 10 = 0
    · have hn : n < 10 := by omega
      have hmod : n % 10 = n := Nat.mod_eq_of_lt hn
      simp only [h0, if_true, List.foldl_cons]
      rw [hmod, digitChar_toNat hn]
      have : decLen n = 1 := by rw [decLen]; simp [hn]
      rw [this]
      congr 1
      omega
    · simp only [h0, if_false]
      have hdiv : n / 10 < fuel := by
        have h1 : n / 10 < n := Nat.div_lt_self (by omega) (by omega)
        omega
      rw [ih (n / 10) _ a hdiv]
      simp only [List.foldl_cons]
      have hmod : n % 10 < 10 := Nat.mod_lt _ (by omega)
      rw [digitChar_toNat hmod]
      have hlen : decLen n = decLen (n / 10) + 1 := by
        rw [decLen]
        have : ¬n < 10 := by
          intro hc
          exact h0 (Nat.div_eq_of_lt hc)
        simp [this]
      rw [hlen]
      congr 1
      have := Nat.div_add_mod n 10
      rw [Nat.pow_succ]
      ring_nf
      omega

theorem evalDigits_toDigits (n : Nat) :
    evalDigits (Nat.toDigits 10 n) = n := by
  show evalDigits (Nat.toDigitsCore 10 (n + 1) n []) = n
  rw [evalDigits, foldl_toDigitsCore (n + 1) n [] 0 (Nat.lt_succ_self n)]
  simp

theorem nat_repr_data_injective {a b : Nat}
    (h : (Nat.repr a).data = (Nat.repr b).data) : a = b := by
  have ha := evalDigits_toDigits a
  have hb := evalDigits_toDigits b
  have heq : (Nat.toDigits 10 a) = (Nat.toDigits 10 b) := by
    simpa [Nat.repr, List.asString] using h
  rw [heq, hb] at ha
  exact ha.symm

theorem nat_repr_injective : Function.Injective Nat.repr :=
  fun _ _ h => nat_repr_data_injective (congrArg String.data h)

theorem toDigitsCore_head (fuel : Nat) :
    ∀ (n : Nat) (ds : List Char), ∃ m rest, m < 10 ∧
    Nat.toDigitsCore 10 (fuel + 1) n ds = Nat.digitChar m :: rest := by
  induction fuel with
  | zero =>
    intro n ds
    refine ⟨n % 10, ds, Nat.mod_lt _ (by omega), ?_⟩
    show (if n / 10 = 0 then Nat.digitChar (n % 10) :: ds
      else Nat.toDigitsCore 10 0 (n / 10) (Nat.digitChar (n % 10) :: ds)) = _
    by_cases h0 : n / 10 = 0 <;> simp [h0, Nat.toDigitsCore]
  | succ fuel ih =>
    intro n ds
    by_cases h0 : n / 10 = 0
    · exact ⟨n % 10, ds, Nat.mod_lt _ (by omega), by
        show (if n / 10 = 0 then _ else _) = _
        simp [h0]⟩
    · obtain ⟨m, rest, hm, hrec⟩ := ih (n / 10) (Nat.digitChar (n % 10) :: ds)
      exact ⟨m, rest, hm, by
        show (if n / 10 = 0 then _ else _) = _
        simp [h0, hrec]⟩

theorem nat_repr_head_isDigit (n : Nat) :
    ∃ m rest, m < 10 ∧ (Nat.repr n).data = Nat.digitChar m :: rest := by
  obtain ⟨m, rest, hm, hd⟩ := toDigitsCore_head n n []
  exact ⟨m, rest, hm, by simpa [Nat.repr, Nat.toDigits, List.asString] using hd⟩

theorem int_toString_injective : Function.Injective (fun i : Int => toString i) := by
  intro a b h
  simp only [toString] at h
  cases a with
  | ofNat a' =>
    cases b with
    | ofNat b' =>
      have : Nat.repr a' = Nat.repr b' := by
        simpa [instToStringInt, toString, instToStringNat] using h
      exact congrArg Int.ofNat (nat_repr_injective this)
    | negSucc b' =>
      exfalso
      have h' : Nat.repr a' = "-" ++ Nat.repr (b' + 1) := by
        simpa [instToStringInt, toString, instToStringNat] using h
      obtain ⟨m, rest, hm, hd⟩ := nat_repr_head_isDigit a'
      have := congrArg String.data h'
      rw [hd] at this
      have hhd : Nat.digitChar m = '-' := by
        simpa [String.data_append] using congrArg (List.headI) this
      have htn := congrArg Char.toNat hhd
      rw [digitChar_toNat hm, show ('-' : Char).toNat = 45 from rfl] at htn
      omega
  | negSucc a' =>
    cases b with
    | ofNat b' =>
      exfalso
      have h' : "-" ++ Nat.repr (a' + 1) = Nat.repr b' := by
        simpa [instToStringInt, toString, instToStringNat] using h
      obtain ⟨m, rest, hm, hd⟩ := nat_repr_head_isDigit b'
      have := congrArg String.data h'
      rw [hd] at this
      have hhd : '-' = Nat.digitChar m := by
        simpa [String.data_append] using congrArg (List.headI) this
      have htn := congrArg Char.toNat hhd.symm
      rw [digitChar_toNat hm, show ('-' : Char).toNat = 45 from rfl] at htn
      omega
    | negSucc b' =>
      have h' : "-" ++ Nat.repr (a' + 1) = "-" ++ Nat.repr (b' + 1) := by
        simpa [instToStringInt, toString, instToStringNat] using h
      have hd := congrArg String.data h'
      simp only [String.data_append] at hd
      have hdd : (Nat.repr (a' + 1)).data = (Nat.repr (b' + 1)).data := by
        simpa using hd
      have hab : a' + 1 = b' + 1 := nat_repr_data_injective hdd
      have : a' = b' := by omega
      exact congrArg Int.negSucc this

/-! ### Transport lemmas -/

namespace DefaultHTTPClient

theorem retryLoop_error_attempts (oracle : Nat → AttemptOutcome) :
    ∀ (budget made : Nat) (e : TransportError), 0 < budget →
    retryLoop oracle budget made = .error e → e.attempts = made + budget := by
  intro budget
  induction budget with
  | zero => intro made e h; omega
  | succ b ih =>
    intro made e _ hr
    rw [retryLoop] at hr
    cases ho : oracle made with
    | connError =>
      rw [ho] at hr
      by_cases hb : b = 0
      · rw [if_pos hb] at hr
        injection hr with h'
        rw [← h']
        show made + 1 = made + (b + 1)
        omega
      · simp [hb] at hr
        have := ih (made + 1) e (by omega) hr
        omega
    | reply r =>
      rw [ho] at hr
      by_cases hs : shouldRetryStatus r.status_code && !(b = 0 : Bool)
      · simp only [hs, if_true] at hr
        have hb : 0 < b := by
          rcases Bool.and_eq_true_iff.mp hs with ⟨_, h2⟩
          simp at h2
          omega
        have := ih (made + 1) e hb hr
        omega
      · simp only [hs, if_false] at hr
        cases hr

theorem retryLoop_ok_attempts (oracle : Nat → AttemptOutcome) :
    ∀ (budget made : Nat) (r : Response) (n : Nat),
    retryLoop oracle budget made = .ok (r, n) → made < n ∧ n ≤ made + budget := by
  intro budget
  induction budget with
  | zero =>
    intro made r n h
    rw [retryLoop] at h
    cases h
  | succ b ih =>
    intro made r n hr
    rw [retryLoop] at hr
    cases ho : oracle made with
    | connError =>
      rw [ho] at hr
      by_cases hb : b = 0
      · simp [hb] at hr
      · simp [hb] at hr
        have := ih (made + 1) r n hr
        omega
    | reply r' =>
      rw [ho] at hr
      by_cases hs : shouldRetryStatus r'.status_code && !(b = 0 : Bool)
      · simp only [hs, if_true] at hr
        have := ih (made + 1) r n hr
        omega
      · simp only [hs, if_false] at hr
        cases hr
        omega

theorem retryLoop_status_only (oracle oracle' : Nat → AttemptOutcome)
    (h : ∀ i, attemptStatus (oracle i) = attemptStatus (oracle' i)) :
    ∀ (budget made : Nat),
    resultView (retryLoop oracle budget made) =
      resultView (retryLoop oracle' budget made) := by
  intro budget
  induction budget with
  | zero => intro made; rfl
  | succ b ih =>
    intro made
    rw [retryLoop, retryLoop]
    cases ho : oracle made with
    | connError =>
      have ho' : oracle' made = .connError := by
        have := h made
        rw [ho] at this
        cases hx : oracle' made with
        | connError => rfl
        | reply r => rw [hx] at this; simp [attemptStatus] at this
      rw [ho']
      by_cases hb : b = 0
      · simp [hb]
      · simp [hb]
        exact ih (made + 1)
    | reply r =>
      have : ∃ r', oracle' made = .reply r' ∧ r'.status_code = r.status_code := by
        have := h made
        rw [ho] at this
        cases hx : oracle' made with
        | connError => rw [hx] at this; simp [attemptStatus] at this
        | reply r' =>
          rw [hx] at this
          simp [attemptStatus] at this
          exact ⟨r', rfl, this.symm⟩
      obtain ⟨r', ho', hst⟩ := this
      rw [ho']
      dsimp only
      rw [hst]
      by_cases hs : shouldRetryStatus r.status_code && !(b = 0 : Bool)
      · simp only [hs, if_true]
        exact ih (made + 1)
      · simp only [hs, if_false]
        simp [resultView, hst]

end DefaultHTTPClient

theorem DefaultHTTPClient.send_error_iff (oracle : Nat → DefaultHTTPClient.AttemptOutcome) :
    DefaultHTTPClient.send oracle =
      .error { attempts := DefaultHTTPClient.RETRY_ATTEMPTS } ↔
    DefaultHTTPClient.retriable (oracle 0) = true ∧
      DefaultHTTPClient.retriable (oracle 1) = true ∧
      oracle 2 = DefaultHTTPClient.AttemptOutcome.connError := by
  open DefaultHTTPClient in
  rcases h0 : oracle 0 with _ | r0
  · rcases h1 : oracle 1 with _ | r1
    · rcases h2 : oracle 2 with _ | r2
      · simp [send, retryLoop, h0, h1, h2, retriable, RETRY_ATTEMPTS]
      · simp [send, retryLoop, h0, h1, h2, retriable, RETRY_ATTEMPTS]
    · by_cases hs1 : shouldRetryStatus r1.status_code
      · rcases h2 : oracle 2 with _ | r2
        · simp [send, retryLoop, h0, h1, h2, retriable, RETRY_ATTEMPTS, hs1]
        · simp [send, retryLoop, h0, h1, h2, retriable, RETRY_ATTEMPTS, hs1]
      · simp [send, retryLoop, h0, h1, retriable, RETRY_ATTEMPTS,
          Bool.eq_false_iff.mpr hs1]
  · by_cases hs0 : shouldRetryStatus r0.status_code
    · rcases h1 : oracle 1 with _ | r1
      · rcases h2 : oracle 2 with _ | r2
        · simp [send, retryLoop, h0, h1, h2, retriable, RETRY_ATTEMPTS, hs0]
        · simp [send, retryLoop, h0, h1, h2, retriable, RETRY_ATTEMPTS, hs0]
      · by_cases hs1 : shouldRetryStatus r1.status_code
        · rcases h2 : oracle 2 with _ | r2
          · simp [send, retryLoop, h0, h1, h2, retriable, RETRY_ATTEMPTS, hs0, hs1]
          · simp [send, retryLoop, h0, h1, h2, retriable, RETRY_ATTEMPTS, hs0, hs1]
        · simp [send, retryLoop, h0, h1, retriable, RETRY_ATTEMPTS, hs0,
            Bool.eq_false_iff.mpr hs1]
    · simp [send, retryLoop, h0, retriable, RETRY_ATTEMPTS,
        Bool.eq_false_iff.mpr hs0]

/-! ### The claims -/

/-- Claim C1: for every graph name `g` and algorithm name `a`,
`create_job(graph=g, algorithm=a, store=False, max_gss=5)` with all other
optional arguments at their defaults builds a POST request to
`/_api/control_pregel` whose body is exactly
`{"algorithm": a, "graphName": g, "params": {"store": false, "maxGSS": 5}}`,
with no other keys at either level. -/
theorem C1_create_job_exact_body (g a : String) :
    (Pregel.create_job_request g a false (some 5) none none none none).method
      = "post" ∧
    (Pregel.create_job_request g a false (some 5) none none none none).endpoint
      = "/_api/control_pregel" ∧
    (Pregel.create_job_request g a false (some 5) none none none none).data
      = some (.jobj [("algorithm", .jstr a), ("graphName", .jstr g),
          ("params", .jobj [("store", .jbool false), ("maxGSS", .jint 5)])]) :=
  ⟨rfl, rfl, rfl⟩

/-- Claim C10: every `create_job` call produces a body whose `"params"`
object is present and contains the `"store"` key — `store` is a `bool`
defaulting to `True`, so the `store is not None` guard always passes,
`store` is always written into the params mapping, and the mapping is
therefore never empty. -/
theorem C10_create_job_always_stores_store (g a : String) (store : Bool)
    (mg tc : Option Int) (am : Option Bool) (rf : Option String)
    (ap : Option JDict) :
    ∃ p, (Pregel.create_job_data g a store mg tc am rf ap).lookup "params"
        = some (.jobj p) ∧
      p.lookup "store" = some (.jbool store) := by
  have hstore : (Pregel.mergeParams (ap.getD []) store mg tc am rf).lookup "store"
      = some (.jbool store) := by
    cases mg <;> cases tc <;> cases am <;> cases rf <;>
      simp [Pregel.mergeParams, lookup_setKey_self, lookup_setKey_ne]
  refine ⟨Pregel.mergeParams (ap.getD []) store mg tc am rf, ?_, hstore⟩
  have hne : Pregel.mergeParams (ap.getD []) store mg tc am rf ≠ [] := by
    intro hc
    rw [hc] at hstore
    simp at hstore
  have hempty : (Pregel.mergeParams (ap.getD []) store mg tc am rf).isEmpty
      = false := by
    rcases hm2 : Pregel.mergeParams (ap.getD []) store mg tc am rf with _ | ⟨x, xs⟩
    · exact absurd hm2 hne
    · rfl
  show (if (Pregel.mergeParams (ap.getD []) store mg tc am rf).isEmpty then
      ([("algorithm", JVal.jstr a), ("graphName", JVal.jstr g)] : JDict)
    else setKey [("algorithm", JVal.jstr a), ("graphName", JVal.jstr g)]
      "params" (.jobj (Pregel.mergeParams (ap.getD []) store mg tc am rf))).lookup
      "params" = _
  rw [hempty]
  simp only [Bool.false_eq_true, if_false]
  exact lookup_setKey_self _ _ _

/-- Claim C3: for every caller-supplied headers mapping (including `None`),
`Request` construction lower-cases the caller's keys, keeps the two defaults
`charset: utf-8` and `content-type: application/json` unless the caller
overrode them under any casing (in which case the caller's — last — value
wins, per the `lastOverride` characterization), and yields exactly the two
default pairs when headers is `None`. -/
theorem C3_request_headers_normalization (m e : String) (hs : Option HeadersD)
    (ps : Option ParamsD) (d : Option JVal) (rd wr ex : Option FieldsV)
    (dz : Bool) :
    (hs = none → (Request.make m e hs ps d rd wr ex dz).headers =
      [("charset", "utf-8"), ("content-type", "application/json")]) ∧
    (∀ hl k, hs = some hl →
      (Request.make m e hs ps d rd wr ex dz).headers.lookup k =
        match lastOverride k hl with
        | some v => some v
        | none => ([("charset", "utf-8"),
            ("content-type", "application/json")] : HeadersD).lookup k) ∧
    (∀ x, x ∈ dictKeys (Request.make m e hs ps d rd wr ex dz).headers →
      x = "charset" ∨ x = "content-type" ∨
        ∃ hl kv, hs = some hl ∧ kv ∈ hl ∧ x = kv.1.toLower) := by
  refine ⟨?_, ?_, ?_⟩
  · intro h
    subst h
    rfl
  · intro hl k h
    subst h
    exact lookup_headers_foldl hl _ k
  · intro x hx
    cases hs with
    | none =>
      have : x ∈ dictKeys ([("charset", "utf-8"),
          ("content-type", "application/json")] : HeadersD) := hx
      simp [dictKeys] at this
      tauto
    | some hl =>
      rcases mem_dictKeys_headers_foldl hx with h' | h'
      · simp [dictKeys] at h'
        tauto
      · obtain ⟨kv, hmem, hxx⟩ := h'
        exact Or.inr (Or.inr ⟨hl, kv, rfl, hmem, hxx⟩)

/-- Witness for C3: a caller header under a different casing overrides the
default, and a `None` input yields exactly the default pair. -/
theorem C3_witness :
    (Request.make "get" "/x" (some [("Content-Type", "text/plain")]) none none
      none none none true).headers.lookup "content-type" = some "text/plain" ∧
    (Request.make "get" "/x" none none none none none none true).headers =
      [("charset", "utf-8"), ("content-type", "application/json")] := by
  have h := C3_request_headers_normalization "get" "/x"
    (some [("Content-Type", "text/plain")]) none none none none none true
  have h0 := C3_request_headers_normalization "get" "/x" none none none none
    none none true
  constructor
  · rw [h.2.1 [("Content-Type", "text/plain")] "content-type" rfl]
    simp [lastOverride, String.toLower, String.map_eq]
  · exact h0.1 rfl

/-- Claim C4: for every params mapping with `bool`/`int`/`str` values
(distinct keys, as in a Python `dict`), normalization maps `True ↦ "1"`,
`False ↦ "0"`, stringifies every other value losslessly (the string form is
injective on `int`s and the identity on `str`s), leaves keys unchanged, and
maps a `None` input to the empty mapping. -/
theorem C4_request_params_normalization (ps : ParamsD)
    (hnd : (dictKeys ps).Nodup) :
    normalize_params (some ps) = ps.map (fun kv => (kv.1, pvalStr kv.2)) ∧
    normalize_params none = [] ∧
    pvalStr (.pbool true) = "1" ∧
    pvalStr (.pbool false) = "0" ∧
    (∀ s, pvalStr (.pstr s) = s) ∧
    Function.Injective (fun i : Int => pvalStr (.pint i)) := by
  refine ⟨?_, rfl, rfl, rfl, fun s => rfl, int_toString_injective⟩
  show ps.foldl (fun acc kv => setKey acc kv.1 (pvalStr kv.2)) [] = _
  have : ps.foldl (fun acc kv => setKey acc kv.1 (pvalStr kv.2)) [] =
      (ps.map (fun kv => (kv.1, pvalStr kv.2))).foldl
        (fun acc kv => setKey acc kv.1 kv.2) [] := by
    rw [List.foldl_map]
  rw [this]
  rw [foldl_setKey_append _ [] (by simp [dictKeys]) ?nd]
  · simp
  case nd =>
    have : dictKeys (ps.map (fun kv => (kv.1, pvalStr kv.2))) = dictKeys ps := by
      simp [dictKeys, List.map_map, Function.comp_def]
    rwa [this]

/-- Witness for C4: a concrete mapping with all three value kinds. -/
theorem C4_witness :
    normalize_params (some [("a", PValue.pbool true), ("b", PValue.pbool false),
      ("c", PValue.pint (-7)), ("d", PValue.pstr "x")]) =
      [("a", "1"), ("b", "0"), ("c", "-7"), ("d", "x")] := by
  have h := C4_request_params_normalization
    [("a", PValue.pbool true), ("b", PValue.pbool false),
     ("c", PValue.pint (-7)), ("d", PValue.pstr "x")] (by decide)
  rw [h.1]
  rfl

/-- Claim C9: `normalize_headers` and `normalize_params` are idempotent:
re-normalizing either function's output (fed back under its input type)
returns the output unchanged.  Totality on the declared input types holds by
construction: both embeddings are total Lean functions defined by structural
recursion, mirroring the exception-free Python loops. -/
theorem C9_normalization_idempotent (h : Option HeadersD) (p : Option ParamsD) :
    normalize_headers (some (normalize_headers h)) = normalize_headers h ∧
    normalize_params (some ((normalize_params p).map
      (fun kv => (kv.1, PValue.pstr kv.2)))) = normalize_params p :=
  ⟨normalize_headers_idem h, normalize_params_idem p⟩

/-- Claim C5: for every job id `j`, the request built by `job(j)` is a GET of
`/_api/control_pregel/{j}`; its response handler raises `PregelJobGetError`
carrying that request and the response whenever the status is not 2xx, and
returns the formatted body otherwise. -/
theorem C5_pregel_job_error_handling (j : Int) (fmt : JVal → JVal)
    (resp : Response) :
    ((Pregel.job_request j).method = "get" ∧
     (Pregel.job_request j).endpoint = "/_api/control_pregel/" ++ toString j) ∧
    (¬(200 ≤ resp.status_code ∧ resp.status_code < 300) →
      Pregel.job_response_handler fmt j resp =
        .error (.pregelJobGetError resp (Pregel.job_request j))) ∧
    ((200 ≤ resp.status_code ∧ resp.status_code < 300) →
      Pregel.job_response_handler fmt j resp = .ok (fmt resp.body)) := by
  refine ⟨⟨rfl, rfl⟩, ?_, ?_⟩
  · intro hno
    have hfalse : resp.is_success = false := by
      simp only [Response.is_success, Bool.and_eq_false_iff,
        decide_eq_false_iff_not]
      omega
    simp [Pregel.job_response_handler, hfalse]
  · intro hyes
    have htrue : resp.is_success = true := by
      simp only [Response.is_success, Bool.and_eq_true, decide_eq_true_eq]
      omega
    simp [Pregel.job_response_handler, htrue]

/-- Witness for C5: `job(42)` against a 404 response raises the job-get error
carrying the original GET request for `/_api/control_pregel/42`; against a
200 response it returns the formatted body. -/
theorem C5_witness :
    Pregel.job_response_handler id 42 resp404 =
      .error (.pregelJobGetError resp404 (Pregel.job_request 42)) ∧
    (Pregel.job_request 42).method = "get" ∧
    (Pregel.job_request 42).endpoint = "/_api/control_pregel/42" ∧
    Pregel.job_response_handler id 42 resp200 = .ok (id resp200.body) := by
  have h := C5_pregel_job_error_handling 42 id resp404
  have h2 := C5_pregel_job_error_handling 42 id resp200
  refine ⟨h.2.1 (by decide), h.1.1, ?_, h2.2.2 (by decide)⟩
  rw [h.1.2]
  rfl

/-- Claim C2: the transport retries exactly on a transient status
(429/500/502/503/504) or a connection error — a non-transient first reply
such as a 404 is returned as a normal Response after exactly one attempt —
with an exponential backoff schedule and a fixed budget of
`RETRY_ATTEMPTS = 3` attempts, and the retry behaviour is a function of the
status codes alone, never of response bodies. -/
theorem C2_transport_retry_policy :
    (∀ (oracle : Nat → DefaultHTTPClient.AttemptOutcome) r,
      oracle 0 = DefaultHTTPClient.AttemptOutcome.reply r →
      DefaultHTTPClient.shouldRetryStatus r.status_code = false →
      DefaultHTTPClient.send oracle = .ok (r, 1)) ∧
    (∀ (oracle : Nat → DefaultHTTPClient.AttemptOutcome),
      DefaultHTTPClient.retriable (oracle 0) = true →
      2 ≤ DefaultHTTPClient.sendAttempts oracle) ∧
    (∀ (oracle : Nat → DefaultHTTPClient.AttemptOutcome),
      DefaultHTTPClient.sendAttempts oracle ≤ DefaultHTTPClient.RETRY_ATTEMPTS) ∧
    (∀ s : Nat, DefaultHTTPClient.shouldRetryStatus s = true ↔
      s ∈ [429, 500, 502, 503, 504]) ∧
    (∀ oracle oracle' : Nat → DefaultHTTPClient.AttemptOutcome,
      (∀ i, DefaultHTTPClient.attemptStatus (oracle i) =
        DefaultHTTPClient.attemptStatus (oracle' i)) →
      DefaultHTTPClient.resultView (DefaultHTTPClient.send oracle) =
        DefaultHTTPClient.resultView (DefaultHTTPClient.send oracle')) ∧
    (∀ i, DefaultHTTPClient.backoff_delay_ms (i + 1) =
      2 * DefaultHTTPClient.backoff_delay_ms i) := by
  open DefaultHTTPClient in
  refine ⟨?_, ?_, ?_, ?_, ?_, ?_⟩
  · intro oracle r h0 hs
    simp [send, retryLoop, h0, hs]
  · intro oracle hret
    have hsend : send oracle = retryLoop oracle 2 1 := by
      rcases h0 : oracle 0 with _ | r0
      · simp [send, retryLoop, h0]
      · have hs : shouldRetryStatus r0.status_code = true := by
          simpa [retriable, h0] using hret
        simp [send, retryLoop, h0, hs]
    rw [sendAttempts, hsend]
    cases hr : retryLoop oracle 2 1 with
    | error e =>
      have := retryLoop_error_attempts oracle 2 1 e (by omega) hr
      simp [resultView, this]
    | ok x =>
      obtain ⟨r, n⟩ := x
      have := retryLoop_ok_attempts oracle 2 1 r n hr
      simp only [resultView]
      omega
  · intro oracle
    rw [sendAttempts]
    cases hr : send oracle with
    | error e =>
      have := retryLoop_error_attempts oracle 3 0 e (by omega) hr
      simp [resultView, this, RETRY_ATTEMPTS]
    | ok x =>
      obtain ⟨r, n⟩ := x
      have := retryLoop_ok_attempts oracle 3 0 r n hr
      simp only [resultView, RETRY_ATTEMPTS]
      omega
  · intro s
    simp [shouldRetryStatus, retry_statuses]
  · intro oracle oracle' h
    exact retryLoop_status_only oracle oracle' h 3 0
  · intro i
    simp [backoff_delay_ms, Nat.pow_succ]
    ring

/-- Witness for C2: a 404 first reply is returned untouched after one
attempt; a first connection error forces a second attempt; the spec's
`[503, 503, 200]` schedule succeeds with exactly 3 attempts. -/
theorem C2_witness :
    DefaultHTTPClient.send (fun _ => .reply resp404) = .ok (resp404, 1) ∧
    2 ≤ DefaultHTTPClient.sendAttempts (fun _ => .connError) ∧
    DefaultHTTPClient.sendAttempts (fun i =>
      if i < 2 then .reply { resp404 with status_code := 503 }
      else .reply resp200) = 3 := by
  have h := C2_transport_retry_policy
  refine ⟨h.1 _ resp404 rfl (by decide), h.2.1 _ (by decide), ?_⟩
  have hle := h.2.2.1 (fun i =>
    if i < 2 then .reply { resp404 with status_code := 503 }
    else .reply resp200)
  have hge := h.2.1 (fun i =>
    if i < 2 then .reply { resp404 with status_code := 503 }
    else .reply resp200) (by decide)
  have : DefaultHTTPClient.sendAttempts (fun i =>
      if i < 2 then .reply { resp404 with status_code := 503 }
      else .reply resp200) =
      (DefaultHTTPClient.resultView (DefaultHTTPClient.retryLoop (fun i =>
        if i < 2 then .reply { resp404 with status_code := 503 }
        else .reply resp200) 3 0)).2 := rfl
  simp [DefaultHTTPClient.retryLoop, DefaultHTTPClient.resultView,
    DefaultHTTPClient.sendAttempts, DefaultHTTPClient.send,
    DefaultHTTPClient.shouldRetryStatus, DefaultHTTPClient.retry_statuses]

/-- Claim C6: the modelled transport send either returns a Response (with its
attempt count) or fails with a `TransportError` carrying the full attempt
budget `RETRY_ATTEMPTS = 3`; the failure arises exactly when the first two
attempts are retriable (connection error or transient status) and the third
is a connection error — no other exception kind exists at this boundary. -/
theorem C6_transport_failure_taxonomy
    (oracle : Nat → DefaultHTTPClient.AttemptOutcome) :
    ((∃ r n, DefaultHTTPClient.send oracle = .ok (r, n)) ∨
      DefaultHTTPClient.send oracle =
        .error { attempts := DefaultHTTPClient.RETRY_ATTEMPTS }) ∧
    (DefaultHTTPClient.send oracle =
        .error { attempts := DefaultHTTPClient.RETRY_ATTEMPTS } ↔
      DefaultHTTPClient.retriable (oracle 0) = true ∧
        DefaultHTTPClient.retriable (oracle 1) = true ∧
        oracle 2 = DefaultHTTPClient.AttemptOutcome.connError) := by
  constructor
  · cases hr : DefaultHTTPClient.send oracle with
    | error e =>
      right
      have := DefaultHTTPClient.retryLoop_error_attempts oracle 3 0 e
        (by omega) hr
      congr 1
      cases e
      simp_all [DefaultHTTPClient.RETRY_ATTEMPTS]
    | ok x =>
      obtain ⟨r, n⟩ := x
      exact Or.inl ⟨r, n, rfl⟩
  · exact DefaultHTTPClient.send_error_iff oracle

/-- Claim C7: when the caller passes an `algorithm_params` mapping,
`create_job` merges the optional parameters into that very object — the call
uses the caller's reference (no copy), rewrites its contents in place and
touches no other object — so reusing the mapping across calls aliases state:
a second call that sets no `result_field` still emits the `resultField`
written by the first call, both in the shared object and in its own body. -/
theorem C7_create_job_aliases_caller_params (heap : Pregel.DictHeap)
    (fresh r : Nat) (g₁ a₁ : String) (s₁ : Bool) (mg₁ tc₁ : Option Int)
    (am₁ : Option Bool) (f : String) (fresh₂ : Nat) (g₂ a₂ : String)
    (s₂ : Bool) (mg₂ tc₂ : Option Int) (am₂ : Option Bool) :
    (Pregel.create_job_on_heap heap fresh g₁ a₁ s₁ mg₁ tc₁ am₁ (some f)
      (some r)).params_ref = r ∧
    (Pregel.create_job_on_heap heap fresh g₁ a₁ s₁ mg₁ tc₁ am₁ (some f)
      (some r)).heap r = Pregel.mergeParams (heap r) s₁ mg₁ tc₁ am₁ (some f) ∧
    (∀ q, q ≠ r → (Pregel.create_job_on_heap heap fresh g₁ a₁ s₁ mg₁ tc₁ am₁
      (some f) (some r)).heap q = heap q) ∧
    ((Pregel.create_job_on_heap
      (Pregel.create_job_on_heap heap fresh g₁ a₁ s₁ mg₁ tc₁ am₁ (some f)
        (some r)).heap fresh₂ g₂ a₂ s₂ mg₂ tc₂ am₂ none (some r)).heap r).lookup
      "resultField" = some (.jstr f) ∧
    (∃ p, (Pregel.create_job_on_heap
      (Pregel.create_job_on_heap heap fresh g₁ a₁ s₁ mg₁ tc₁ am₁ (some f)
        (some r)).heap fresh₂ g₂ a₂ s₂ mg₂ tc₂ am₂ none (some r)).data.lookup
      "params" = some (.jobj p) ∧ p.lookup "resultField" = some (.jstr f)) := by
  have hm1 : (Pregel.create_job_on_heap heap fresh g₁ a₁ s₁ mg₁ tc₁ am₁
      (some f) (some r)).heap r =
      Pregel.mergeParams (heap r) s₁ mg₁ tc₁ am₁ (some f) := by
    simp [Pregel.create_job_on_heap]
  have hrf1 : (Pregel.mergeParams (heap r) s₁ mg₁ tc₁ am₁ (some f)).lookup
      "resultField" = some (.jstr f) := by
    simp [Pregel.mergeParams, lookup_setKey_self]
  have hrf2 : ∀ (m : JDict), m.lookup "resultField" = some (.jstr f) →
      (Pregel.mergeParams m s₂ mg₂ tc₂ am₂ none).lookup "resultField" =
        some (.jstr f) := by
    intro m hm
    cases mg₂ <;> cases tc₂ <;> cases am₂ <;>
      simp [Pregel.mergeParams, lookup_setKey_ne, hm]
  have hmerged2 : ((Pregel.create_job_on_heap
      (Pregel.create_job_on_heap heap fresh g₁ a₁ s₁ mg₁ tc₁ am₁ (some f)
        (some r)).heap fresh₂ g₂ a₂ s₂ mg₂ tc₂ am₂ none (some r)).heap r).lookup
      "resultField" = some (.jstr f) := by
    have hh : (Pregel.create_job_on_heap
        (Pregel.create_job_on_heap heap fresh g₁ a₁ s₁ mg₁ tc₁ am₁ (some f)
          (some r)).heap fresh₂ g₂ a₂ s₂ mg₂ tc₂ am₂ none (some r)).heap r =
        Pregel.mergeParams ((Pregel.create_job_on_heap heap fresh g₁ a₁ s₁ mg₁
          tc₁ am₁ (some f) (some r)).heap r) s₂ mg₂ tc₂ am₂ none := by
      simp [Pregel.create_job_on_heap]
    rw [hh]
    exact hrf2 _ (hm1 ▸ hrf1)
  refine ⟨rfl, hm1, ?_, hmerged2, ?_⟩
  · intro q hq
    simp [Pregel.create_job_on_heap, hq]
  · refine ⟨Pregel.mergeParams ((Pregel.create_job_on_heap heap fresh g₁ a₁ s₁
      mg₁ tc₁ am₁ (some f) (some r)).heap r) s₂ mg₂ tc₂ am₂ none, ?_, ?_⟩
    · have hlk : (Pregel.mergeParams ((Pregel.create_job_on_heap heap fresh g₁
        a₁ s₁ mg₁ tc₁ am₁ (some f) (some r)).heap r) s₂ mg₂ tc₂ am₂
        none).lookup "resultField" = some (.jstr f) :=
        hrf2 _ (hm1 ▸ hrf1)
      have hne : Pregel.mergeParams ((Pregel.create_job_on_heap heap fresh g₁
          a₁ s₁ mg₁ tc₁ am₁ (some f) (some r)).heap r) s₂ mg₂ tc₂ am₂ none
          ≠ [] := by
        intro hc
        rw [hc] at hlk
        simp at hlk
      have hempty : (Pregel.mergeParams ((Pregel.create_job_on_heap heap fresh
          g₁ a₁ s₁ mg₁ tc₁ am₁ (some f) (some r)).heap r) s₂ mg₂ tc₂ am₂
          none).isEmpty = false := by
        rcases hm2 : Pregel.mergeParams ((Pregel.create_job_on_heap heap fresh
          g₁ a₁ s₁ mg₁ tc₁ am₁ (some f) (some r)).heap r) s₂ mg₂ tc₂ am₂ none
          with _ | ⟨x, xs⟩
        · exact absurd hm2 hne
        · rfl
      show (if (Pregel.mergeParams ((Pregel.create_job_on_heap heap fresh g₁ a₁
          s₁ mg₁ tc₁ am₁ (some f) (some r)).heap r) s₂ mg₂ tc₂ am₂
          none).isEmpty then
          ([("algorithm", JVal.jstr a₂), ("graphName", JVal.jstr g₂)] : JDict)
        else setKey [("algorithm", JVal.jstr a₂), ("graphName", JVal.jstr g₂)]
          "params" (.jobj (Pregel.mergeParams ((Pregel.create_job_on_heap heap
            fresh g₁ a₁ s₁ mg₁ tc₁ am₁ (some f) (some r)).heap r) s₂ mg₂ tc₂
            am₂ none))).lookup "params" = _
      rw [hempty]
      simp only [Bool.false_eq_true, if_false]
      exact lookup_setKey_self _ _ _
    · exact hrf2 _ (hm1 ▸ hrf1)

/-- Witness for C7: with a concrete store and reference, the call writes the
caller's object and leaves every other object untouched. -/
theorem C7_witness :
    (Pregel.create_job_on_heap (fun _ => []) 0 "g1" "pagerank" true none none
      none (some "f") (some 1)).params_ref = 1 ∧
    (Pregel.create_job_on_heap (fun _ => []) 0 "g1" "pagerank" true none none
      none (some "f") (some 1)).heap 5 = [] := by
  have h := C7_create_job_aliases_caller_params (fun _ => []) 0 1 "g1"
    "pagerank" true none none none "f" 2 "g2" "pagerank" false none none none
  exact ⟨h.1, h.2.2.1 5 (by decide)⟩

/-- Claim C8: the per-attempt timeout.  The class constant
`REQUEST_TIMEOUT = 60` exists, but `create_session` constructs
`RetryClient(raise_for_status=False, retry_options=...)` without any timeout
argument and `send_request` issues
`request(url=..., params=..., data=..., headers=..., auth=...)` without any
timeout argument either, so the 60-second bound is never applied to a
physical call — the claim fails on the code as written. -/
theorem C8_timeout_constant_unused :
    DefaultHTTPClient.REQUEST_TIMEOUT = 60 ∧
    DefaultHTTPClient.create_session_args.timeout = none ∧
    ∀ u p d h a, (DefaultHTTPClient.send_request_kwargs u p d h a).timeout =
      none :=
  ⟨rfl, rfl, fun _ _ _ _ _ => rfl⟩
